import Mathlib

/-!
Verification of the performance-tuning engine of `perf_tuning.py`.

The Python source is shallowly embedded: the trial runner
(`run_perf_tuning`), the binary-search thread tuner
(`run_perf_tuning_binary`), the environment-combination generator
(`get_env_var_combos` / `gen_env_var_dict`), and the report-phase
selection and percentile computations from the `__main__` block.
Latencies are modelled as exact rationals, the benchmark subprocess as
an abstract probe function `threadCount -> Option latency`, and Python
exceptions as `Except` errors.
-/

namespace PerfTuning

/-- Python truthiness of the `avg` field: `if param.avg:` is false both
when `avg` is `None` and when it is `0`. -/
def truthy : Option ℚ → Bool
  | none => false
  | some v => v != 0

/-- Python 3's `round` on a value with zero decimals: round half to even. -/
def roundHalfEven (x : ℚ) : ℤ :=
  if Int.fract x < 1 / 2 then ⌊x⌋
  else if 1 / 2 < Int.fract x then ⌊x⌋ + 1
  else if ⌊x⌋ % 2 = 0 then ⌊x⌋ else ⌊x⌋ + 1

/-- Python 3's `round(x, n)` for `n` decimal digits (exact rational model). -/
def pyround (x : ℚ) (n : ℕ) : ℚ := (roundHalfEven (x * 10 ^ n) : ℚ) / 10 ^ n

/-- Latency parsing of `run_perf_tuning`: each output line is modelled by its
comma-separated token list (tokens as rational values); a line contributes its
second token exactly when it has five tokens. -/
def parse_latencies (fileLines : List (List ℚ)) : List ℚ :=
  fileLines.filterMap (fun tokens => if tokens.length = 5 then tokens.get? 1 else none)

/-- In-place ascending sort of the latency list (`latencies.sort()`). -/
def sortQ (l : List ℚ) : List ℚ := l.insertionSort (fun a b => a ≤ b)

/-- The measurement part of `run_perf_tuning`: given the measured run's exit
code, whether the result file exists, and the file's parsed lines, produce the
`(avg, latencies)` result fields.  In percentile mode with a successful run but
zero parsed latencies, the source evaluates `latencies[0]` (for the monitor's
sampling hint) and raises `IndexError`; that exception is modelled as
`Except.error`. -/
def run_perf_tuning (percentiles : Bool) (returncode : ℤ) (fileExists : Bool)
    (fileLines : List (List ℚ)) : Except String (Option ℚ × List ℚ) :=
  if returncode = 0 ∧ fileExists = true then
    let latencies := parse_latencies fileLines
    if percentiles = true ∧ latencies = [] then .error "IndexError"
    else
      let ls := sortQ latencies
      if 0 < ls.length then .ok (some (pyround (ls.sum / (ls.length : ℚ)) 9 * 1000), ls)
      else .ok (none, ls)
  else .ok (none, [])

/-! ## Binary-search thread tuner (`run_perf_tuning_binary`) -/

/-- Loop state of the binary search: current window `[lower, upper]`, the best
latency and thread count seen so far, and the one-shot re-run flag. -/
structure BState where
  lower : ℕ
  upper : ℕ
  bestLatency : ℚ
  bestRun : ℕ
  rerun : Bool
deriving DecidableEq

/-- Outcome of one iteration of the `while lower <= upper` loop. -/
inductive StepOut where
  | exit : StepOut
  | fail (n : ℕ) : StepOut
  | next (n : ℕ) (s : BState) (restarted : Bool) : StepOut
deriving DecidableEq

/-- The bisection update after a successful probe of `mid` with (truthy)
average latency `v`: strictly worse than the best so far pulls `upper` down to
`mid - 1`; better-or-equal records the new best and advances `lower` to
`mid + 1`. -/
def binUpdate (s : BState) (mid : ℕ) (v : ℚ) : BState :=
  if s.bestLatency < v then { s with upper := mid - 1 }
  else { s with lower := mid + 1, bestLatency := v, bestRun := mid }

/-- One iteration of the search loop: exit when the window is empty or the
midpoint is 2 (already probed as the baseline); otherwise probe the floor
midpoint, break on a falsy average, apply `binUpdate` on success, and then
take the one-shot re-run branch when the window just closed with the best
thread count equal to `(1 + num_cores) // 2`. -/
def binStep (probe : ℕ → Option ℚ) (numCores : ℕ) (s : BState) : StepOut :=
  if s.upper < s.lower then .exit
  else
    let mid := s.lower + (s.upper - s.lower) / 2
    if mid = 2 then .exit
    else
      let a := probe mid
      if truthy a then
        let s1 := binUpdate s mid (a.getD 0)
        if s1.upper < s1.lower ∧ s1.bestRun = (1 + numCores) / 2 ∧ s1.rerun = false then
          .next mid { s1 with lower := 2, upper := (1 + numCores) / 2 - 1, rerun := true } true
        else .next mid s1 false
      else .fail mid

/-- Probe bookkeeping of one search: thread counts appended to the caller's
`successful_tests` and `failed_tests` lists, and how many times the re-run
branch fired. -/
structure Trace where
  succ : List ℕ
  fail : List ℕ
  restarts : ℕ
deriving DecidableEq

/-- The `while lower <= upper` loop, with explicit fuel (the window shrinks at
every iteration and the re-run fires at most once, so any fuel beyond
`2 * numCores + 4` is inert). -/
def binLoop (probe : ℕ → Option ℚ) (numCores : ℕ) : ℕ → BState → Trace → ℕ × Trace
  | 0, s, t => (s.bestRun, t)
  | fuel + 1, s, t =>
    match binStep probe numCores s with
    | .exit => (s.bestRun, t)
    | .fail n => (s.bestRun, { t with fail := t.fail ++ [n] })
    | .next n s1 restarted =>
      binLoop probe numCores fuel s1
        { t with succ := t.succ ++ [n],
                 restarts := t.restarts + (if restarted then 1 else 0) }

/-- `run_perf_tuning_binary`: the full search.  `lower` is fixed at 2 and
`upper` is `numCores` in native-threading (OMP) mode and `numCores - 1`
otherwise; an empty range returns -1 at once; a falsy baseline probe of 2
records one failure and returns -1; otherwise the loop runs from
`[3, upper]` with the baseline as the incumbent best. -/
def run_perf_tuning_binary (probe : ℕ → Option ℚ) (numCores : ℕ) (isOmp : Bool)
    (fuel : ℕ) : ℤ × Trace :=
  let lower : ℕ := 2
  let upper : ℕ := if isOmp then numCores else numCores - 1
  if upper < lower then (-1, ⟨[], [], 0⟩)
  else
    let a := probe lower
    if truthy a then
      let r := binLoop probe numCores fuel
        ⟨lower + 1, upper, a.getD 0, lower, false⟩ ⟨[lower], [], 0⟩
      ((r.1 : ℤ), r.2)
    else (-1, ⟨[], [lower], 0⟩)

/-! ## Environment combination generator -/

/-- One product step of `get_env_var_combos`: the first non-degenerate axis is
initialized with `itertools.combinations(options, 1)` (one singleton per
option); later axes take `itertools.product(all_combos, options)` and flatten
each pair into a longer list. -/
def combineAxis (all_combos : List (List String)) (options : List String) :
    List (List String) :=
  if all_combos.length = 0 then options.map (fun o => [o])
  else all_combos.flatMap (fun a => options.map (fun o => a ++ [o]))

/-- `get_env_var_combos`: an absent mapping (`env_vars == None`) yields the
single combination `[""]`; otherwise the candidate-value lists are folded with
`combineAxis` starting from the empty accumulator.  The mapping is modelled as
an insertion-ordered association list. -/
def get_env_var_combos (env_vars : Option (List (String × List String))) :
    List (List String) :=
  match env_vars with
  | none => [[""]]
  | some vars => (vars.map Prod.snd).foldl combineAxis []

/-- `gen_env_var_dict`: pair each variable name with the combination's value at
the same index, dropping empty-string values; empty names or options give the
empty dictionary. -/
def gen_env_var_dict (env_names env_option : List String) :
    List (String × String) :=
  if env_names.length = 0 ∨ env_option.length = 0 then []
  else (List.range env_names.length).filterMap (fun i =>
    match env_names.get? i, env_option.get? i with
    | some nm, some o => if 0 < o.length then some (nm, o) else none
    | _, _ => none)

/-! ## Candidate trials and the report phase (`__main__`) -/

/-- The result-relevant fields of a `PerfTestParams` object. -/
structure Trial where
  name : String
  test_args : List String
  env : List (String × String)
  avg : Option ℚ
  latencies : List ℚ
deriving DecidableEq

/-- Python's stable `sorted(successful, key=lambda e: e.avg)` under the
assumption that every key is a number (the crashing `None`-key case is handled
separately by `profile_sort`). -/
def sortByAvg (l : List Trial) : List Trial :=
  l.insertionSort (fun a b => a.avg.getD 0 ≤ b.avg.getD 0)

/-- `successful.extend([x for x in tests if x.avg])`: the tuner's successes
plus every candidate trial with a truthy average. -/
def ranking_successes (successful tests : List Trial) : List Trial :=
  successful ++ tests.filter (fun t => truthy t.avg)

/-- `failed.extend([x for x in tests if not x.avg])` restricted to this
provider's candidates. -/
def ranking_failures (tests : List Trial) : List Trial :=
  tests.filter (fun t => !(truthy t.avg))

/-- `successful = sorted(successful, key=lambda e: e.avg)[:int(args.top_n)]`:
the provider's reported success set. -/
def top_n_successes (successful tests : List Trial) (topN : ℕ) : List Trial :=
  (sortByAvg (ranking_successes successful tests)).take topN

/-- Whether `needle` begins `haystack` (character lists). -/
def charsStartWith : List Char → List Char → Bool
  | [], _ => true
  | _ :: _, [] => false
  | c :: cs, d :: ds => c == d && charsStartWith cs ds

/-- Whether `needle` occurs contiguously inside `haystack`. -/
def charsContain (needle : List Char) : List Char → Bool
  | [] => charsStartWith needle []
  | c :: cs => charsStartWith needle (c :: cs) || charsContain needle cs

/-- Whether a trial's name contains the given substring
(`"cuda" in x.name`). -/
def mentions (sub : String) (t : Trial) : Bool :=
  charsContain sub.toList t.name.toList

/-- GPU-absence filtering of the failure list: with no GPU detected, failures
whose name mentions cuda or tensorrt are dropped. -/
def gpu_filter_failed (hasGPU : Bool) (failed : List Trial) : List Trial :=
  if hasGPU then failed
  else failed.filter (fun t => !(mentions "cuda" t) && !(mentions "tensorrt" t))

/-- The percentile re-profiling pass on one profile candidate: the source calls
`run_perf_tuning(test, percentiles=True)`, which overwrites the trial's `avg`
and `latencies` fields in place with the re-run's results. -/
def reprofile (t : Trial) (returncode : ℤ) (fileExists : Bool)
    (fileLines : List (List ℚ)) : Except String Trial :=
  match run_perf_tuning true returncode fileExists fileLines with
  | .ok (avg, lats) => .ok { t with avg := avg, latencies := lats }
  | .error e => .error e

/-- `profile_candidates = sorted(profile_candidates, key=lambda e: e.avg)`:
with at least two candidates, Python compares the keys, and any `None` key
raises `TypeError`; with at most one element no comparison happens. -/
def profile_sort (cands : List Trial) : Except String (List Trial) :=
  if cands.length ≤ 1 ∨ cands.all (fun t => t.avg.isSome) then
    .ok (sortByAvg cands)
  else .error "TypeError"

/-- The report's `p90` field for a successful trial: present exactly when at
least 10 latency samples exist, as `round(latencies[int(n * .9)] * 1000, 5)`
over the ascending samples. -/
def p90_field (latencies : List ℚ) : Option ℚ :=
  if 10 ≤ latencies.length then
    some (pyround ((latencies.getD (latencies.length * 9 / 10) 0) * 1000) 5)
  else none

/-- The report's `p95` field: present exactly when at least 20 samples exist,
as `round(latencies[int(n * .95)] * 1000, 5)`. -/
def p95_field (latencies : List ℚ) : Option ℚ :=
  if 20 ≤ latencies.length then
    some (pyround ((latencies.getD (latencies.length * 95 / 100) 0) * 1000) 5)
  else none

/-- The combined best-inter-op/best-pool candidate built inside the env sweep:
args gain `-P -y best_inter`, then `-x 1` plus an `OMP_NUM_THREADS` override in
native-threading mode, or `-x best_pool` otherwise. -/
def combined_params (test_args : List String) (env : List (String × String))
    (nm : String) (bestInter bestPool : ℤ) (isOmp : Bool) : Trial :=
  let base := test_args ++ ["-P", "-y", toString bestInter]
  { name := nm
    test_args := if isOmp then base ++ ["-x", "1"] else base ++ ["-x", toString bestPool]
    env := if isOmp then env ++ [("OMP_NUM_THREADS", toString bestPool)] else env
    avg := none
    latencies := [] }

/-- The candidates appended to `tests` for one environment combination: the
combined configuration exactly when `best_inter_op_num_threads > 1` and
`best_thread_pool_size > 1`, always followed by the defaults-only candidate. -/
def combo_candidates (bestInter bestPool : ℤ) (combined defaultParams : Trial) :
    List Trial :=
  (if 1 < bestInter then (if 1 < bestPool then [combined] else []) else [])
    ++ [defaultParams]

/-! ## Theorems -/

theorem combineAxis_length (acc : List (List String)) (o : List String)
    (ha : acc ≠ []) : (combineAxis acc o).length = acc.length * o.length := by
  unfold combineAxis
  rw [if_neg (by simpa [List.length_eq_zero] using ha)]
  simp [List.length_flatMap, Function.comp_def, List.map_const]

theorem foldl_combineAxis_length (ls : List (List String)) :
    ∀ acc : List (List String), acc ≠ [] → (∀ o ∈ ls, o ≠ []) →
      (List.foldl combineAxis acc ls).length =
        acc.length * (ls.map List.length).prod := by
  induction ls with
  | nil => intro acc _ _; simp
  | cons o os ih =>
    intro acc ha hne
    have ho : o ≠ [] := hne o (by simp)
    have hlen : (combineAxis acc o).length = acc.length * o.length :=
      combineAxis_length acc o ha
    have hcne : combineAxis acc o ≠ [] := by
      intro h
      rw [← List.length_eq_zero, hlen] at h
      rcases Nat.mul_eq_zero.mp h with h0 | h0
      · exact ha (List.length_eq_zero.mp h0)
      · exact ho (List.length_eq_zero.mp h0)
    have := ih (combineAxis acc o) hcne (fun x hx => hne x (by simp [hx]))
    simp only [List.foldl_cons, this, hlen, List.map_cons, List.prod_cons]
    ring

/-- Claim C3 counterexample: with an empty (but present) mapping of
environment variables, the generator produces zero combinations, not the
single no-overrides combination the claim requires. -/
theorem C3_counterexample :
    get_env_var_combos (some []) = [] ∧
      (get_env_var_combos (some [])).length ≠ 1 := by
  exact ⟨rfl, by decide⟩

/-- Claim C3 (amended): an absent mapping produces exactly one combination
(and it denotes no overrides); an empty mapping produces zero combinations;
and for a nonempty mapping whose candidate lists are all nonempty, exactly the
product of the list sizes is produced. -/
theorem C3_env_combo_counts :
    (get_env_var_combos none).length = 1
    ∧ gen_env_var_dict [] [""] = []
    ∧ (get_env_var_combos (some [])).length = 0
    ∧ ∀ vars : List (String × List String), vars ≠ [] →
        (∀ p ∈ vars, p.2 ≠ []) →
        (get_env_var_combos (some vars)).length =
          (vars.map (fun p => p.2.length)).prod := by
  refine ⟨rfl, rfl, rfl, ?_⟩
  intro vars hvne hne
  match vars with
  | p :: ps =>
    have hp2 : p.2 ≠ [] := hne p (by simp)
    have hfirst : combineAxis [] p.2 = p.2.map (fun o => [o]) := by
      unfold combineAxis; simp
    have hacc : p.2.map (fun o => [o]) ≠ [] := by
      intro h
      exact hp2 (List.map_eq_nil_iff.mp h)
    have hrest : ∀ o ∈ ps.map Prod.snd, o ≠ [] := by
      intro o ho
      rcases List.mem_map.mp ho with ⟨q, hq, rfl⟩
      exact hne q (by simp [hq])
    show (List.foldl combineAxis [] ((p :: ps).map Prod.snd)).length = _
    rw [List.map_cons, List.foldl_cons, hfirst,
      foldl_combineAxis_length (ps.map Prod.snd) _ hacc hrest]
    simp [List.map_map, Function.comp_def, mul_comm]

/-- Claim C3 amended-claim witness at a concrete mapping of two variables with
two and three candidate values. -/
theorem C3_env_combo_counts_witness :
    (get_env_var_combos (some [("A", ["x", "y"]), ("B", ["u", "v", "w"])])).length
      = 6 := by
  have h := C3_env_combo_counts.2.2.2 [("A", ["x", "y"]), ("B", ["u", "v", "w"])]
    (by decide) (by decide)
  simpa using h

theorem sortQ_perm (l : List ℚ) : List.Perm (sortQ l) l :=
  List.perm_insertionSort _ l

theorem roundHalfEven_natCast (m : ℕ) : roundHalfEven (m : ℚ) = m := by
  unfold roundHalfEven
  rw [Int.fract_natCast]
  norm_num

theorem pyround_of_mul_eq (x : ℚ) (n m : ℕ) (h : x * 10 ^ n = (m : ℚ)) :
    pyround x n = (m : ℚ) / 10 ^ n := by
  unfold pyround
  rw [h, roundHalfEven_natCast]
  norm_num

theorem pyround_nine_mul (x : ℚ) : pyround x 9 * 1000 = pyround (x * 1000) 6 := by
  unfold pyround
  have h : x * 1000 * 10 ^ 6 = x * 10 ^ 9 := by ring
  rw [h]
  have h9 : ((10:ℚ) ^ 9) = 10 ^ 6 * 1000 := by norm_num
  rw [h9, ← div_div, div_mul_cancel₀ _ (by norm_num : (1000:ℚ) ≠ 0)]

/-- Claim C4: for every completed measurement of the trial runner, the
average-latency field is `none` exactly when the exit code was non-zero, the
output file never materialized, or zero latency samples were parsed; otherwise
it is the mean of the parsed latencies converted to milliseconds and rounded
to a fixed precision (six millisecond decimals, i.e. the source's
`round(mean_seconds, 9) * 1000`). -/
theorem C4_avg_none_iff (percentiles : Bool) (rc : ℤ) (ex : Bool)
    (lines : List (List ℚ)) (avg : Option ℚ) (lats : List ℚ)
    (h : run_perf_tuning percentiles rc ex lines = .ok (avg, lats)) :
    (avg = none ↔ (rc ≠ 0 ∨ ex = false ∨ parse_latencies lines = []))
    ∧ (avg ≠ none →
        avg = some (pyround ((parse_latencies lines).sum /
          ((parse_latencies lines).length : ℚ) * 1000) 6)) := by
  simp only [run_perf_tuning] at h
  by_cases hc : rc = 0 ∧ ex = true
  · rw [if_pos hc] at h
    by_cases hp : percentiles = true ∧ parse_latencies lines = []
    · rw [if_pos hp] at h
      exact absurd h (by simp)
    · rw [if_neg hp] at h
      have hperm := sortQ_perm (parse_latencies lines)
      by_cases hl : 0 < (sortQ (parse_latencies lines)).length
      · rw [if_pos hl] at h
        simp only [Except.ok.injEq, Prod.mk.injEq] at h
        obtain ⟨h1, _⟩ := h
        have hne : parse_latencies lines ≠ [] := by
          intro h0
          rw [← List.length_eq_zero, ← hperm.length_eq] at h0
          omega
        constructor
        · rw [← h1]
          simp [hc.1, hc.2, hne]
        · intro _
          rw [← h1, hperm.sum_eq, hperm.length_eq, pyround_nine_mul]
      · rw [if_neg hl] at h
        simp only [Except.ok.injEq, Prod.mk.injEq] at h
        obtain ⟨h1, _⟩ := h
        have hnil : parse_latencies lines = [] := by
          rw [← List.length_eq_zero, ← hperm.length_eq]
          omega
        constructor
        · rw [← h1]
          simp [hnil]
        · intro hn
          exact absurd h1.symm hn
  · rw [if_neg hc] at h
    simp only [Except.ok.injEq, Prod.mk.injEq] at h
    obtain ⟨h1, _⟩ := h
    constructor
    · rw [← h1]
      simp only [true_iff]
      rcases Decidable.not_and_iff_or_not.mp hc with h0 | h0
      · exact Or.inl h0
      · exact Or.inr (Or.inl (by simpa using h0))
    · intro hn
      exact absurd h1.symm hn

/-- Claim C4 witness: a measured run with exit code 1 completes with a `none`
average, and the failure disjunction holds at that input. -/
theorem C4_avg_none_iff_witness :
    (none : Option ℚ) = none ↔
      ((1:ℤ) ≠ 0 ∨ false = false ∨ parse_latencies [] = []) :=
  (C4_avg_none_iff false 1 false [] none [] rfl).1

/-- Claim C8: when the range is non-empty and the baseline probe of the lower
bound 2 is falsy, the search records exactly one failed trial, performs no
other probe, and returns -1. -/
theorem C8_baseline_failure (probe : ℕ → Option ℚ) (numCores : ℕ) (isOmp : Bool)
    (fuel : ℕ) (hrange : 2 ≤ (if isOmp then numCores else numCores - 1))
    (hfail : truthy (probe 2) = false) :
    run_perf_tuning_binary probe numCores isOmp fuel = (-1, ⟨[], [2], 0⟩) := by
  simp only [run_perf_tuning_binary, hfail]
  rw [if_neg (Nat.not_lt.mpr hrange)]
  simp

/-- Claim C8 witness: a probe that always fails, on the OMP range `[2, 8]`. -/
theorem C8_baseline_failure_witness :
    run_perf_tuning_binary (fun _ => none) 8 true 10 = (-1, ⟨[], [2], 0⟩) :=
  C8_baseline_failure (fun _ => none) 8 true 10 (by norm_num) rfl

/-- Claim C7: the 90th-percentile report field is present exactly when at
least 10 samples exist and is then the ascending sample at index
`floor(n * 0.9)` (an in-range index) converted to milliseconds at the
report's fixed 5-decimal rounding; the 95th-percentile field likewise with
threshold 20 and index `floor(n * 0.95)`. -/
theorem C7_percentile_fields (l : List ℚ) :
    (p90_field l = none ↔ l.length < 10)
    ∧ (10 ≤ l.length →
        p90_field l = some (pyround ((l.getD (l.length * 9 / 10) 0) * 1000) 5)
          ∧ l.length * 9 / 10 < l.length)
    ∧ (p95_field l = none ↔ l.length < 20)
    ∧ (20 ≤ l.length →
        p95_field l = some (pyround ((l.getD (l.length * 95 / 100) 0) * 1000) 5)
          ∧ l.length * 95 / 100 < l.length) := by
  refine ⟨?_, ?_, ?_, ?_⟩
  · by_cases h : 10 ≤ l.length
    · simp [p90_field, h, Nat.not_lt.mpr h]
    · simp [p90_field, h, Nat.not_le.mp h]
  · intro h
    refine ⟨by simp [p90_field, h], ?_⟩
    have h10 : (0:ℕ) < 10 := by norm_num
    rw [Nat.div_lt_iff_lt_mul h10]
    omega
  · by_cases h : 20 ≤ l.length
    · simp [p95_field, h, Nat.not_lt.mpr h]
    · simp [p95_field, h, Nat.not_le.mp h]
  · intro h
    refine ⟨by simp [p95_field, h], ?_⟩
    have h100 : (0:ℕ) < 100 := by norm_num
    rw [Nat.div_lt_iff_lt_mul h100]
    omega

/-- Claim C7 witness: with 25 samples all equal to 1 second, both percentile
fields are present and equal 1000 milliseconds. -/
theorem C7_percentile_fields_witness :
    p90_field (List.replicate 25 1) = some 1000
    ∧ p95_field (List.replicate 25 1) = some 1000 := by
  have h := C7_percentile_fields (List.replicate 25 1)
  have h90 : (List.replicate 25 (1:ℚ)).getD
      ((List.replicate 25 (1:ℚ)).length * 9 / 10) 0 = 1 := by decide
  have h95 : (List.replicate 25 (1:ℚ)).getD
      ((List.replicate 25 (1:ℚ)).length * 95 / 100) 0 = 1 := by decide
  have hval : pyround ((1:ℚ) * 1000) 5 = 1000 := by
    rw [pyround_of_mul_eq ((1:ℚ) * 1000) 5 100000000 (by norm_num)]
    norm_num
  constructor
  · rw [(h.2.1 (by simp)).1, h90, hval]
  · rw [(h.2.2.2 (by simp)).1, h95, hval]

/-- Claim C1: in every probing iteration of the binary search (non-empty
window, midpoint distinct from the already-probed baseline 2, successful
probe, and no re-run trigger in this iteration), the probed thread count is
exactly the floor midpoint `lower + (upper - lower) / 2`, and the update is:
strictly worse latency than the best so far pulls `upper` down to `mid - 1`;
better-or-equal records the probe as the new best and advances `lower` to
`mid + 1`. -/
theorem C1_bisection_update (probe : ℕ → Option ℚ) (numCores : ℕ) (s : BState)
    (mid : ℕ) (v : ℚ)
    (hmid : mid = s.lower + (s.upper - s.lower) / 2)
    (hwin : s.lower ≤ s.upper)
    (hm2 : mid ≠ 2)
    (hp : probe mid = some v) (hv : v ≠ 0)
    (hnr : ¬ ((binUpdate s mid v).upper < (binUpdate s mid v).lower
        ∧ (binUpdate s mid v).bestRun = (1 + numCores) / 2
        ∧ (binUpdate s mid v).rerun = false)) :
    binStep probe numCores s = .next mid (binUpdate s mid v) false
    ∧ (s.bestLatency < v →
        binUpdate s mid v = { s with upper := mid - 1 })
    ∧ (v ≤ s.bestLatency →
        binUpdate s mid v =
          { s with lower := mid + 1, bestLatency := v, bestRun := mid }) := by
  refine ⟨?_, ?_, ?_⟩
  · subst hmid
    have ht : truthy (probe (s.lower + (s.upper - s.lower) / 2)) = true := by
      rw [hp]; simp [truthy, hv]
    simp only [binStep]
    rw [if_neg (Nat.not_lt.mpr hwin), if_neg hm2, if_pos ht, hp]
    simp only [Option.getD_some]
    rw [if_neg hnr]
  · intro hlt
    unfold binUpdate
    rw [if_pos hlt]
  · intro hle
    unfold binUpdate
    rw [if_neg (not_lt.mpr hle)]

/-- Claim C1 witness: window `[3, 8]`, best latency 10 at thread count 2, a
probe of the midpoint 5 returning the better latency 5 advances the lower
bound and the incumbent best. -/
theorem C1_bisection_update_witness :
    binStep (fun _ => some (5:ℚ)) 8 ⟨3, 8, 10, 2, false⟩ =
      .next 5 (binUpdate ⟨3, 8, 10, 2, false⟩ 5 5) false
    ∧ binUpdate ⟨3, 8, 10, 2, false⟩ 5 5 = ⟨6, 8, 5, 5, false⟩ := by
  have h := C1_bisection_update (fun _ => some (5:ℚ)) 8 ⟨3, 8, 10, 2, false⟩ 5 5
    rfl (by norm_num) (by norm_num) rfl (by norm_num) (by decide)
  refine ⟨h.1, ?_⟩
  rw [h.2.2 (by norm_num)]

/-- The bisection update never touches the re-run flag. -/
theorem binUpdate_rerun (s : BState) (mid : ℕ) (v : ℚ) :
    (binUpdate s mid v).rerun = s.rerun := by
  unfold binUpdate
  split <;> rfl

/-- Inversion of a continuing loop step: a restarting step requires the flag
to have been clear and sets it; a non-restarting step leaves it unchanged. -/
theorem binStep_next_rerun (probe : ℕ → Option ℚ) (numCores : ℕ) (s : BState)
    (n : ℕ) (s1 : BState) (r : Bool)
    (h : binStep probe numCores s = .next n s1 r) :
    (r = true → s.rerun = false ∧ s1.rerun = true)
    ∧ (r = false → s1.rerun = s.rerun) := by
  simp only [binStep] at h
  by_cases h1 : s.upper < s.lower
  · rw [if_pos h1] at h
    exact absurd h (by simp)
  · rw [if_neg h1] at h
    by_cases h2 : s.lower + (s.upper - s.lower) / 2 = 2
    · rw [if_pos h2] at h
      exact absurd h (by simp)
    · rw [if_neg h2] at h
      by_cases h3 : truthy (probe (s.lower + (s.upper - s.lower) / 2)) = true
      · rw [if_pos h3] at h
        have hur : (binUpdate s (s.lower + (s.upper - s.lower) / 2)
            ((probe (s.lower + (s.upper - s.lower) / 2)).getD 0)).rerun = s.rerun :=
          binUpdate_rerun _ _ _
        generalize hu : binUpdate s (s.lower + (s.upper - s.lower) / 2)
            ((probe (s.lower + (s.upper - s.lower) / 2)).getD 0) = u at h hur
        by_cases h4 : u.upper < u.lower ∧ u.bestRun = (1 + numCores) / 2
            ∧ u.rerun = false
        · rw [if_pos h4] at h
          simp only [StepOut.next.injEq] at h
          obtain ⟨_, hs1, hr⟩ := h
          constructor
          · intro _
            refine ⟨?_, ?_⟩
            · rw [← hur]
              exact h4.2.2
            · rw [← hs1]
          · intro hfalse
            rw [← hr] at hfalse
            exact absurd hfalse (by simp)
        · rw [if_neg h4] at h
          simp only [StepOut.next.injEq] at h
          obtain ⟨_, hs1, hr⟩ := h
          constructor
          · intro htrue
            rw [← hr] at htrue
            exact absurd htrue (by simp)
          · intro _
            rw [← hs1, hur]
      · rw [if_neg h3] at h
        exact absurd h (by simp)

/-- Over any run of the loop, the re-run branch can add at most one restart
beyond the incoming trace when the flag is still clear, and none once it is
set. -/
theorem binLoop_restarts_le (probe : ℕ → Option ℚ) (numCores : ℕ) :
    ∀ (fuel : ℕ) (s : BState) (t : Trace),
      (binLoop probe numCores fuel s t).2.restarts ≤
        t.restarts + (if s.rerun = true then 0 else 1) := by
  intro fuel
  induction fuel with
  | zero =>
    intro s t
    exact Nat.le_add_right _ _
  | succ n ih =>
    intro s t
    simp only [binLoop]
    cases hstep : binStep probe numCores s with
    | exit => exact Nat.le_add_right _ _
    | fail m => exact Nat.le_add_right _ _
    | next m s1 r =>
      have hr := binStep_next_rerun probe numCores s m s1 r hstep
      have h5 := ih s1 ⟨t.succ ++ [m], t.fail, t.restarts + (if r = true then 1 else 0)⟩
      show (binLoop probe numCores n s1
          ⟨t.succ ++ [m], t.fail, t.restarts + (if r = true then 1 else 0)⟩).2.restarts ≤
        t.restarts + (if s.rerun = true then 0 else 1)
      cases r with
      | true =>
        obtain ⟨hs, hs1⟩ := hr.1 rfl
        rw [hs1] at h5
        rw [hs]
        simp at h5 ⊢
        omega
      | false =>
        have hs1 := hr.2 rfl
        rw [hs1] at h5
        cases hsr : s.rerun with
        | true =>
          rw [hsr] at h5
          simp at h5 ⊢
          omega
        | false =>
          rw [hsr] at h5
          simp at h5 ⊢
          omega

/-- A whole search restarts at most once. -/
theorem run_restarts_le_one (probe : ℕ → Option ℚ) (numCores : ℕ)
    (isOmp : Bool) (fuel : ℕ) :
    (run_perf_tuning_binary probe numCores isOmp fuel).2.restarts ≤ 1 := by
  simp only [run_perf_tuning_binary]
  by_cases h1 : (if isOmp then numCores else numCores - 1) < 2
  · rw [if_pos h1]
    exact Nat.zero_le 1
  · rw [if_neg h1]
    by_cases h2 : truthy (probe 2) = true
    · rw [if_pos h2]
      have := binLoop_restarts_le probe numCores fuel
        ⟨2 + 1, if isOmp then numCores else numCores - 1, (probe 2).getD 0, 2, false⟩
        ⟨[2], [], 0⟩
      simpa using this
    · rw [if_neg h2]
      exact Nat.zero_le 1

/-- A concrete probe for the re-run analysis: latencies 10, 8, 9, 9 at thread
counts 2, 5, 7, 6 and 100 elsewhere. -/
def probeC2 : ℕ → Option ℚ
  | 2 => some 10
  | 5 => some 8
  | 6 => some 9
  | 7 => some 9
  | _ => some 100

/-- Claim C2 counterexample: on the native-threading range `[2, 8]`
(`numCores = 8`, `is_omp`), the search converges (doubling the fuel changes
nothing) to best thread count 5, which is exactly the floor midpoint
`2 + (8 - 2) / 2` of the original full range, yet no restart ever fires —
`restarts = 0` and the lower half is never re-probed — because the source
compares against `(1 + 8) // 2 = 4` instead of the range midpoint 5. -/
theorem C2_counterexample :
    run_perf_tuning_binary probeC2 8 true 20 = ((5:ℤ), ⟨[2, 5, 7, 6], [], 0⟩)
    ∧ run_perf_tuning_binary probeC2 8 true 40 = ((5:ℤ), ⟨[2, 5, 7, 6], [], 0⟩)
    ∧ 2 + (8 - 2) / 2 = 5 := by
  refine ⟨by decide, by decide, by norm_num⟩

/-- Claim C2 (amended): the restart fires, at most once per search, exactly
when an update closes the window (`lower > upper`) while the best thread
count equals `(1 + num_cores) // 2` — the midpoint of the requested core
count, not of the probed range — and then resets the window to
`[2, (1 + num_cores) // 2 - 1]` with the re-run flag set. -/
theorem C2_rerun_amended :
    (∀ (probe : ℕ → Option ℚ) (numCores : ℕ) (isOmp : Bool) (fuel : ℕ),
      (run_perf_tuning_binary probe numCores isOmp fuel).2.restarts ≤ 1)
    ∧ (∀ (probe : ℕ → Option ℚ) (numCores : ℕ) (s : BState) (mid : ℕ) (v : ℚ),
        mid = s.lower + (s.upper - s.lower) / 2 →
        s.lower ≤ s.upper → mid ≠ 2 →
        probe mid = some v → v ≠ 0 →
        (binUpdate s mid v).upper < (binUpdate s mid v).lower →
        (binUpdate s mid v).bestRun = (1 + numCores) / 2 →
        s.rerun = false →
        binStep probe numCores s =
          .next mid { binUpdate s mid v with
            lower := 2, upper := (1 + numCores) / 2 - 1, rerun := true } true) := by
  refine ⟨run_restarts_le_one, ?_⟩
  intro probe numCores s mid v hmid hwin hm2 hp hv hconv hbest hrr
  subst hmid
  have ht : truthy (probe (s.lower + (s.upper - s.lower) / 2)) = true := by
    rw [hp]; simp [truthy, hv]
  simp only [binStep]
  rw [if_neg (Nat.not_lt.mpr hwin), if_neg hm2, if_pos ht, hp]
  simp only [Option.getD_some]
  rw [if_pos ⟨hconv, hbest, by rw [binUpdate_rerun]; exact hrr⟩]

/-- Claim C2 amended-claim witness: the at-most-once bound at the concrete
probe, and a concrete converging update with best equal to `(1 + 8) / 2 = 4`
firing the restart to the window `[2, 3]`. -/
theorem C2_rerun_amended_witness :
    (run_perf_tuning_binary probeC2 8 true 20).2.restarts ≤ 1
    ∧ binStep (fun _ => some (9:ℚ)) 8 ⟨4, 4, 10, 3, false⟩ =
        .next 4 { binUpdate ⟨4, 4, 10, 3, false⟩ 4 9 with
          lower := 2, upper := (1 + 8) / 2 - 1, rerun := true } true :=
  ⟨C2_rerun_amended.1 probeC2 8 true 20,
    C2_rerun_amended.2 (fun _ => some (9:ℚ)) 8 ⟨4, 4, 10, 3, false⟩ 4 9 rfl
      (le_refl 4) (by norm_num) rfl (by norm_num) (by decide) (by decide) rfl⟩

/-- The loop step depends on the probe only through truthiness and the probed
value when truthy: replacing falsy results by other falsy results changes
nothing. -/
theorem binStep_congr (p q : ℕ → Option ℚ) (numCores : ℕ) (s : BState)
    (h : ∀ m, p m = q m ∨ (truthy (p m) = false ∧ truthy (q m) = false)) :
    binStep p numCores s = binStep q numCores s := by
  simp only [binStep]
  rcases h (s.lower + (s.upper - s.lower) / 2) with he | ⟨hf1, hf2⟩
  · rw [he]
  · by_cases h1 : s.upper < s.lower
    · rw [if_pos h1, if_pos h1]
    · rw [if_neg h1, if_neg h1]
      by_cases h2 : s.lower + (s.upper - s.lower) / 2 = 2
      · rw [if_pos h2, if_pos h2]
      · rw [if_neg h2, if_neg h2,
          if_neg (by simp [hf1] :
            ¬ truthy (p (s.lower + (s.upper - s.lower) / 2)) = true),
          if_neg (by simp [hf2] :
            ¬ truthy (q (s.lower + (s.upper - s.lower) / 2)) = true)]

theorem binLoop_congr (p q : ℕ → Option ℚ) (numCores : ℕ)
    (h : ∀ m, p m = q m ∨ (truthy (p m) = false ∧ truthy (q m) = false)) :
    ∀ (fuel : ℕ) (s : BState) (t : Trace),
      binLoop p numCores fuel s t = binLoop q numCores fuel s t := by
  intro fuel
  induction fuel with
  | zero => intro s t; rfl
  | succ n ih =>
    intro s t
    simp only [binLoop]
    rw [binStep_congr p q numCores s h]
    cases binStep q numCores s with
    | exit => rfl
    | fail m => rfl
    | next m s1 r => exact ih s1 _

/-- Claim C10: the baseline check, the probe check, the candidate ranking
filter and the failure-list filter all classify through `truthy` alone, so an
average of exactly 0 behaves everywhere exactly like a `none` average:
`truthy` rejects both, the whole search is invariant under exchanging falsy
probe results, a candidate with zero average lands in the failure filter and
never in the success filter. -/
theorem C10_truthiness_classification :
    (truthy (some 0) = false ∧ truthy none = false)
    ∧ (∀ (p q : ℕ → Option ℚ) (numCores : ℕ) (isOmp : Bool) (fuel : ℕ),
        (∀ m, p m = q m ∨ (truthy (p m) = false ∧ truthy (q m) = false)) →
        run_perf_tuning_binary p numCores isOmp fuel =
          run_perf_tuning_binary q numCores isOmp fuel)
    ∧ (∀ (tests : List Trial) (t : Trial), t ∈ tests → truthy t.avg = false →
        t ∈ ranking_failures tests
        ∧ t ∉ tests.filter (fun x => truthy x.avg)) := by
  refine ⟨⟨rfl, rfl⟩, ?_, ?_⟩
  · intro p q numCores isOmp fuel h
    simp only [run_perf_tuning_binary]
    rcases h 2 with he | ⟨hf1, hf2⟩
    · rw [he, binLoop_congr p q numCores h fuel]
    · by_cases h1 : (if isOmp = true then numCores else numCores - 1) < 2
      · rw [if_pos h1, if_pos h1]
      · rw [if_neg h1, if_neg h1,
          if_neg (by simp [hf1] : ¬ truthy (p 2) = true),
          if_neg (by simp [hf2] : ¬ truthy (q 2) = true)]
  · intro tests t ht hf
    constructor
    · exact List.mem_filter.mpr ⟨ht, by simp [hf]⟩
    · intro hc
      have := (List.mem_filter.mp hc).2
      rw [hf] at this
      exact absurd this (by simp)

/-- Claim C10 witness: an everywhere-zero-average probe behaves exactly like
an everywhere-`none` probe, and a trial with average 0 is listed among the
ranking failures. -/
theorem C10_truthiness_classification_witness :
    run_perf_tuning_binary (fun _ => some 0) 8 true 10 =
      run_perf_tuning_binary (fun _ => none) 8 true 10
    ∧ (⟨"t", [], [], some 0, []⟩ : Trial) ∈
        ranking_failures [⟨"t", [], [], some 0, []⟩] :=
  ⟨C10_truthiness_classification.2.1 (fun _ => some 0) (fun _ => none) 8 true 10
      (fun _ => Or.inr ⟨rfl, rfl⟩),
    (C10_truthiness_classification.2.2 [⟨"t", [], [], some 0, []⟩]
      ⟨"t", [], [], some 0, []⟩ (by simp) rfl).1⟩

/-- Four executed candidate trials, all successful, with distinct averages. -/
def trialA : Trial := ⟨"a", [], [], some 1, []⟩

def trialB : Trial := ⟨"b", [], [], some 2, []⟩

def trialC : Trial := ⟨"c", [], [], some 3, []⟩

def trialD : Trial := ⟨"d", [], [], some 4, []⟩

/-- Claim C5 counterexample: with `top_n = 3` and four successful executed
candidates, the slowest successful candidate appears in neither the reported
success set nor the failure list — it is silently dropped by the top-N
truncation. -/
theorem C5_counterexample :
    trialD ∈ [trialA, trialB, trialC, trialD]
    ∧ trialD ∉ top_n_successes [] [trialA, trialB, trialC, trialD] 3
    ∧ trialD ∉ ranking_failures [trialA, trialB, trialC, trialD] := by
  decide

/-- Claim C5 (amended): every executed candidate appears among the ranked
successes or in the failure list as accumulated — but the report keeps only
the first `top_n` of the sorted successes, so a successful candidate may land
in the silently dropped tail instead of the final Report. -/
theorem C5_report_membership (successful tests : List Trial) (topN : ℕ)
    (t : Trial) (ht : t ∈ tests) :
    t ∈ top_n_successes successful tests topN
    ∨ t ∈ (sortByAvg (ranking_successes successful tests)).drop topN
    ∨ t ∈ ranking_failures tests := by
  by_cases htr : truthy t.avg = true
  · have h1 : t ∈ ranking_successes successful tests :=
      List.mem_append_right _ (List.mem_filter.mpr ⟨ht, htr⟩)
    have h2 : t ∈ sortByAvg (ranking_successes successful tests) :=
      ((List.perm_insertionSort _ _).mem_iff).mpr h1
    rw [← List.take_append_drop topN
      (sortByAvg (ranking_successes successful tests))] at h2
    rcases List.mem_append.mp h2 with h3 | h3
    · exact Or.inl h3
    · exact Or.inr (Or.inl h3)
  · refine Or.inr (Or.inr (List.mem_filter.mpr ⟨ht, ?_⟩))
    simp only [Bool.not_eq_true] at htr
    simp [htr]

/-- Claim C5 amended-claim witness at a singleton candidate list. -/
theorem C5_report_membership_witness :
    trialD ∈ top_n_successes [] [trialD] 3
    ∨ trialD ∈ (sortByAvg (ranking_successes [] [trialD])).drop 3
    ∨ trialD ∈ ranking_failures [trialD] :=
  C5_report_membership [] [trialD] 3 trialD (by simp)

/-- A best-ranked candidate that succeeded in the ranking phase. -/
def trialP1 : Trial := ⟨"cpu_4_intra_threads", [], [], some 5, [1, 2]⟩

/-- Another provider's best-ranked candidate, also successful in ranking. -/
def trialP2 : Trial := ⟨"dnnl_3_intra_threads", [], [], some 4, [1]⟩

/-- Claim C6, evaluated at the failing input: when the percentile re-run of
`trialP2` exits non-zero, its previously successful ranked average is
overwritten with `none`; the subsequent `sorted(profile_candidates,
key=lambda e: e.avg)` then compares `None` against a number and raises
`TypeError`, so no report is produced at all — the ranked result is not
reported, contradicting the claim. -/
theorem C6_profiling_failure_eval :
    reprofile trialP2 1 false [] =
      .ok ⟨"dnnl_3_intra_threads", [], [], none, []⟩
    ∧ profile_sort [trialP1, ⟨"dnnl_3_intra_threads", [], [], none, []⟩] =
        .error "TypeError" := by
  exact ⟨rfl, rfl⟩

/-- Claim C9: the combined parallel candidate is appended for an environment
combination exactly when both the tuned inter-op thread count and the tuned
intra-op/native pool size exceed 1, and its configuration applies `-P`, the
tuned `-y` inter-op value and the tuned intra-op value together (as `-x` in
CLI mode, as `OMP_NUM_THREADS` with `-x 1` in native-threading mode). -/
theorem C9_combined_candidate (bestInter bestPool : ℤ)
    (combined defaultP : Trial) (hne : combined ≠ defaultP) :
    (combined ∈ combo_candidates bestInter bestPool combined defaultP ↔
      (1 < bestInter ∧ 1 < bestPool))
    ∧ (∀ (ta : List String) (env : List (String × String)) (nm : String)
        (bi bp : ℤ),
        (combined_params ta env nm bi bp false).test_args =
          ta ++ ["-P", "-y", toString bi, "-x", toString bp]
        ∧ (combined_params ta env nm bi bp true).test_args =
            ta ++ ["-P", "-y", toString bi, "-x", "1"]
        ∧ (combined_params ta env nm bi bp true).env =
            env ++ [("OMP_NUM_THREADS", toString bp)]) := by
  constructor
  · constructor
    · intro hmem
      by_cases h1 : 1 < bestInter
      · by_cases h2 : 1 < bestPool
        · exact ⟨h1, h2⟩
        · simp only [combo_candidates, if_pos h1, if_neg h2, List.nil_append,
            List.mem_singleton] at hmem
          exact absurd hmem hne
      · simp only [combo_candidates, if_neg h1, List.nil_append,
          List.mem_singleton] at hmem
        exact absurd hmem hne
    · intro hb
      simp [combo_candidates, if_pos hb.1, if_pos hb.2]
  · intro ta env nm bi bp
    refine ⟨?_, ?_, ?_⟩ <;> simp [combined_params]

/-- Claim C9 witness: with tuned values 4 and 3 the combined candidate is
present among the combination's appended candidates. -/
theorem C9_combined_candidate_witness :
    trialA ∈ combo_candidates 4 3 trialA trialB ↔ (1 < (4:ℤ) ∧ 1 < (3:ℤ)) :=
  (C9_combined_candidate 4 3 trialA trialB (by decide)).1

end PerfTuning
